import Mathlib

/-!
Verification of the VocabTest quiz core: a shallow embedding of the
selection engine (`shuffleArray`, `selectRandomWords`), the distractor
generator (`generateWrongAnswers`, `createMultipleChoiceOptions`), the quiz
session state machine (`initializeTest`, `recordAnswer`, `nextQuestion`),
the results aggregator (`updateUserStats`, `saveTestResult`,
`cleanupOldTests`) and the localStorage persistence layer
(`useLocalStorage`), translated from the TypeScript sources.

JavaScript arrays become `List`, JavaScript numbers become `Nat`/`Int`/`ℚ`
as appropriate, `Math.random()` draws become an explicit source
`rand : Nat → Nat` whose draw at loop index `i` is reduced modulo `i + 1`
(modelling `Math.floor(Math.random() * (i + 1))`, a uniform value in
`[0, i]`), and the asynchronous Supabase calls become explicit state
passing over a `Db` record.
-/

namespace VocabTest

/-- A vocabulary item, from `interface Word` in `useVocabTest.ts`:
`{ word, meaning, example, difficulty }`, all strings. -/
structure Word where
  word : String
  meaning : String
  «example» : String
  difficulty : String
deriving DecidableEq

/-- One recorded answer, from the `answers` entry type in `interface
TestState`: `{ questionIndex, selectedAnswer, correct }`. -/
structure Answer where
  questionIndex : Nat
  selectedAnswer : String
  correct : Bool
deriving DecidableEq

/-- The quiz session state, from `interface TestState` in
`useVocabTest.ts`. -/
structure TestState where
  currentQuestionIndex : Nat
  score : Nat
  selectedWords : List Word
  answers : List Answer
  startTime : Nat
deriving DecidableEq

/-- One step of the Fisher–Yates loop body of `shuffleArray`:
`[shuffled[i], shuffled[j]] = [shuffled[j], shuffled[i]]`.  The bounds
check is a totality guard; every call site inside `shuffleAux` has
`j ≤ i < length`. -/
def swapAt {α : Type} (l : List α) (i j : Nat) : List α :=
  if h : i < l.length ∧ j < l.length then
    (l.set i (l.get ⟨j, h.2⟩)).set j (l.get ⟨i, h.1⟩)
  else l

/-- The Fisher–Yates loop of `shuffleArray`, with `i` counting down:
`for (let i = shuffled.length - 1; i > 0; i--)` with
`j = Math.floor(Math.random() * (i + 1))` modelled as `rand i % (i + 1)`. -/
def shuffleAux {α : Type} (rand : Nat → Nat) : List α → Nat → List α
  | l, 0 => l
  | l, i + 1 => shuffleAux rand (swapAt l (i + 1) (rand (i + 1) % (i + 2))) i

/-- `shuffleArray` from `useVocabTest.ts`: copies the array and runs the
Fisher–Yates loop from index `length - 1` down to `1`. -/
def shuffleArray {α : Type} (rand : Nat → Nat) (array : List α) : List α :=
  shuffleAux rand array (array.length - 1)

/-- `selectRandomWords(words, count, difficulty)` from `useVocabTest.ts`:
filter by difficulty unless the tag is `'all'`, fall back to the whole
pool when the filtered subset is smaller than `count`, then shuffle and
take the first `count`. -/
def selectRandomWords (rand : Nat → Nat) (words : List Word) (count : Nat)
    (difficulty : String) : List Word :=
  let filteredWords :=
    if difficulty != "all" then
      words.filter (fun word => word.difficulty == difficulty)
    else words
  let finalWords := if filteredWords.length < count then words else filteredWords
  (shuffleArray rand finalWords).take count

/-- `generateWrongAnswers(correctWord, allWords, count = 3)` from
`useVocabTest.ts`: drop the correct word (by word identity), shuffle,
take `count`, project to meanings. -/
def generateWrongAnswers (rand : Nat → Nat) (correctWord : Word)
    (allWords : List Word) (count : Nat) : List String :=
  let wrongWords := allWords.filter (fun word => word.word != correctWord.word)
  let shuffledWrongWords := shuffleArray rand wrongWords
  (shuffledWrongWords.take count).map (fun word => word.meaning)

/-- `createMultipleChoiceOptions(correctWord, allWords)` from
`useVocabTest.ts`: three distractors plus the correct meaning, shuffled
again (the two independent `Math.random()` streams are `rand₁`, `rand₂`). -/
def createMultipleChoiceOptions (rand₁ rand₂ : Nat → Nat) (correctWord : Word)
    (allWords : List Word) : List String :=
  let wrongAnswers := generateWrongAnswers rand₁ correctWord allWords 3
  let allOptions := correctWord.meaning :: wrongAnswers
  shuffleArray rand₂ allOptions

theorem cons_get_set_perm {α : Type} (x : α) :
    ∀ (t : List α) (m : Nat) (h : m < t.length),
      List.Perm (t.get ⟨m, h⟩ :: t.set m x) (x :: t)
  | [], _, h => absurd h (Nat.not_lt_zero _)
  | y :: s, 0, _ => by simpa using List.Perm.swap x y s
  | y :: s, k + 1, h => by
    simp only [List.get_cons_succ, List.set_cons_succ]
    exact ((List.Perm.swap y _ _).trans
      ((cons_get_set_perm x s k (Nat.lt_of_succ_lt_succ h)).cons y)).trans
      (List.Perm.swap x y s)

theorem set_get_set_perm {α : Type} :
    ∀ (l : List α) (i j : Nat) (hi : i < l.length) (hj : j < l.length),
      List.Perm ((l.set i (l.get ⟨j, hj⟩)).set j (l.get ⟨i, hi⟩)) l
  | [], _, _, hi, _ => absurd hi (Nat.not_lt_zero _)
  | x :: t, 0, 0, _, _ => by simp
  | x :: t, 0, m + 1, _, hj => by
    simp only [List.get_cons_zero, List.get_cons_succ, List.set_cons_zero,
      List.set_cons_succ]
    exact cons_get_set_perm x t m (Nat.lt_of_succ_lt_succ hj)
  | x :: t, n + 1, 0, hi, _ => by
    simp only [List.get_cons_zero, List.get_cons_succ, List.set_cons_zero,
      List.set_cons_succ]
    exact cons_get_set_perm x t n (Nat.lt_of_succ_lt_succ hi)
  | x :: t, n + 1, m + 1, hi, hj => by
    simp only [List.get_cons_succ, List.set_cons_succ]
    exact (set_get_set_perm t n m (Nat.lt_of_succ_lt_succ hi)
      (Nat.lt_of_succ_lt_succ hj)).cons x

theorem swapAt_perm {α : Type} (l : List α) (i j : Nat) :
    List.Perm (swapAt l i j) l := by
  unfold swapAt
  split
  next h => exact set_get_set_perm l i j h.1 h.2
  next => exact List.Perm.refl l

theorem shuffleAux_perm {α : Type} (rand : Nat → Nat) :
    ∀ (n : Nat) (l : List α), List.Perm (shuffleAux rand l n) l
  | 0, l => List.Perm.refl l
  | n + 1, l =>
    (shuffleAux_perm rand n (swapAt l (n + 1) (rand (n + 1) % (n + 2)))).trans
      (swapAt_perm l (n + 1) (rand (n + 1) % (n + 2)))

theorem shuffleArray_perm {α : Type} (rand : Nat → Nat) (l : List α) :
    List.Perm (shuffleArray rand l) l :=
  shuffleAux_perm rand (l.length - 1) l

theorem take_shuffle_length {α : Type} (rand : Nat → Nat) (E : List α)
    (count : Nat) (h : count ≤ E.length) :
    ((shuffleArray rand E).take count).length = count := by
  rw [List.length_take, (shuffleArray_perm rand E).length_eq]
  exact Nat.min_eq_left h

theorem take_shuffle_subset {α : Type} (rand : Nat → Nat) (E : List α)
    (count : Nat) (x : α) (hx : x ∈ (shuffleArray rand E).take count) : x ∈ E :=
  (shuffleArray_perm rand E).mem_iff.mp (List.mem_of_mem_take hx)

theorem take_shuffle_nodup {α : Type} (rand : Nat → Nat) (E : List α)
    (count : Nat) (h : E.Nodup) : ((shuffleArray rand E).take count).Nodup :=
  ((shuffleArray_perm rand E).nodup_iff.mpr h).sublist
    (List.take_sublist count (shuffleArray rand E))

/-- Claim C10: for every input list, `shuffleArray` returns a permutation of
the input (same length, same multiset of elements); the input itself is
untouched (the source copies the array with `[...array]` before swapping,
and in this embedding lists are immutable values). -/
theorem claim_C10_shuffleArray_perm {α : Type} (rand : Nat → Nat) (array : List α) :
    List.Perm (shuffleArray rand array) array ∧
    (shuffleArray rand array).length = array.length := by
  refine ⟨shuffleArray_perm rand array, (shuffleArray_perm rand array).length_eq⟩

/-- Claim C2: for every pool and every `count ≤ |pool|`, `selectRandomWords`
returns exactly `count` items, each an element of the pool, with no
duplicates when the pool has none. -/
theorem claim_C2_selectRandomWords_spec (rand : Nat → Nat) (words : List Word)
    (count : Nat) (difficulty : String)
    (hc : count ≤ words.length) (hnd : words.Nodup) :
    (selectRandomWords rand words count difficulty).length = count ∧
    (∀ x ∈ selectRandomWords rand words count difficulty, x ∈ words) ∧
    (selectRandomWords rand words count difficulty).Nodup := by
  have main : ∀ E : List Word, (∀ x ∈ E, x ∈ words) → E.Nodup → count ≤ E.length →
      ((shuffleArray rand E).take count).length = count ∧
      (∀ x ∈ (shuffleArray rand E).take count, x ∈ words) ∧
      ((shuffleArray rand E).take count).Nodup := by
    intro E hsub hnodup hle
    exact ⟨take_shuffle_length rand E count hle,
      fun x hx => hsub x (take_shuffle_subset rand E count x hx),
      take_shuffle_nodup rand E count hnodup⟩
  have hstep : ∀ F : List Word, (∀ x ∈ F, x ∈ words) → F.Nodup →
      ((shuffleArray rand (if F.length < count then words else F)).take count).length = count ∧
      (∀ x ∈ (shuffleArray rand (if F.length < count then words else F)).take count, x ∈ words) ∧
      ((shuffleArray rand (if F.length < count then words else F)).take count).Nodup := by
    intro F hsub hnodup
    split
    next => exact main words (fun x hx => hx) hnd hc
    next hlen => exact main F hsub hnodup (Nat.le_of_not_lt hlen)
  simp only [selectRandomWords]
  split
  next => exact hstep _ (fun x hx => (List.mem_filter.mp hx).1) (hnd.filter _)
  next => exact hstep words (fun x hx => hx) hnd

/-- Sample item used by concrete witnesses. -/
def wA : Word :=
  { word := "abate", meaning := "to lessen", «example» := "The storm abated.",
    difficulty := "easy" }

/-- Sample item used by concrete witnesses. -/
def wB : Word :=
  { word := "candid", meaning := "frank", «example» := "A candid reply.",
    difficulty := "medium" }

/-- Witness for claim C2 at a concrete pool, count and randomness source. -/
theorem claim_C2_witness :
    (1 ≤ ([wA, wB] : List Word).length ∧ ([wA, wB] : List Word).Nodup) ∧
    ((selectRandomWords (fun _ => 0) [wA, wB] 1 "all").length = 1 ∧
     (∀ x ∈ selectRandomWords (fun _ => 0) [wA, wB] 1 "all", x ∈ [wA, wB]) ∧
     (selectRandomWords (fun _ => 0) [wA, wB] 1 "all").Nodup) :=
  ⟨⟨by decide, by decide⟩,
    claim_C2_selectRandomWords_spec (fun _ => 0) [wA, wB] 1 "all"
      (by decide) (by decide)⟩

theorem set_get_self {α : Type} :
    ∀ (l : List α) (n : Nat) (h : n < l.length), l.set n (l.get ⟨n, h⟩) = l
  | [], _, h => absurd h (Nat.not_lt_zero _)
  | _ :: _, 0, _ => rfl
  | x :: t, n + 1, h => by
    simp only [List.get_cons_succ, List.set_cons_succ]
    rw [set_get_self t n (Nat.lt_of_succ_lt_succ h)]

theorem swapAt_self {α : Type} (l : List α) (i : Nat) : swapAt l i i = l := by
  unfold swapAt
  split
  next h => rw [List.set_set, set_get_self l i h.1]
  next => rfl

theorem shuffleAux_id {α : Type} (rand : Nat → Nat) :
    ∀ (m : Nat) (l : List α), (∀ i, 1 ≤ i → i ≤ m → rand i % (i + 1) = i) →
      shuffleAux rand l m = l
  | 0, _, _ => rfl
  | m + 1, l, hid => by
    have hm : rand (m + 1) % (m + 2) = m + 1 :=
      hid (m + 1) (Nat.succ_le_succ (Nat.zero_le m)) (Nat.le_refl _)
    show shuffleAux rand (swapAt l (m + 1) (rand (m + 1) % (m + 2))) m = l
    rw [hm, swapAt_self]
    exact shuffleAux_id rand m l fun i h1 h2 => hid i h1 (Nat.le_succ_of_le h2)

theorem shuffleAux_high {α : Type} (rand : Nat → Nat) (k : Nat)
    (hhigh : ∀ i, k < i → rand i % (i + 1) = i) :
    ∀ (m : Nat) (l : List α), k ≤ m → shuffleAux rand l m = shuffleAux rand l k
  | 0, l, hk => by rw [Nat.le_zero.mp hk]
  | m + 1, l, hk => by
    rcases Nat.eq_or_lt_of_le hk with heq | hlt
    · rw [heq]
    · have hm : rand (m + 1) % (m + 2) = m + 1 := hhigh (m + 1) hlt
      show shuffleAux rand (swapAt l (m + 1) (rand (m + 1) % (m + 2))) m =
        shuffleAux rand l k
      rw [hm, swapAt_self]
      exact shuffleAux_high rand k hhigh m l (Nat.lt_succ_iff.mp hlt)

/-- With the randomness source that picks index `0` at loop step `k` and is
the identity elsewhere, the Fisher–Yates shuffle reduces to a single swap of
positions `k` and `0`. -/
theorem shuffle_front {α : Type} (l : List α) (k : Nat) (hk : k < l.length) :
    shuffleArray (fun i => if i = k then 0 else i) l = swapAt l k 0 := by
  have hmod : ∀ i : Nat, i ≠ k → (if i = k then 0 else i) % (i + 1) = i := by
    intro i hi
    rw [if_neg hi]
    exact Nat.mod_eq_of_lt (Nat.lt_succ_self i)
  have hk1 : k ≤ l.length - 1 := by omega
  unfold shuffleArray
  rw [shuffleAux_high _ k (fun i hki => hmod i (Nat.ne_of_gt hki)) _ l hk1]
  cases k with
  | zero => rw [swapAt_self]; rfl
  | succ m =>
    show shuffleAux _ (swapAt l (m + 1) ((if m + 1 = m + 1 then 0 else m + 1) % (m + 2))) m = _
    rw [if_pos rfl, Nat.zero_mod]
    exact shuffleAux_id _ m _ fun i h1 h2 => hmod i (by omega)

theorem swapAt_zero_head {α : Type} (l : List α) (k : Nat) (hk : k < l.length) :
    ∃ t, swapAt l k 0 = l.get ⟨k, hk⟩ :: t := by
  have h0 : 0 < l.length := Nat.lt_of_le_of_lt (Nat.zero_le k) hk
  unfold swapAt
  rw [dif_pos ⟨hk, h0⟩]
  cases hset : l.set k (l.get ⟨0, h0⟩) with
  | nil =>
    have hlen := congrArg List.length hset
    simp only [List.length_set, List.length_nil] at hlen
    omega
  | cons a t =>
    rw [List.set_cons_zero]
    exact ⟨t, rfl⟩

/-- Claim C3: with a non-`'all'` difficulty whose filtered subset is smaller
than `count`, `selectRandomWords` discards the filter and samples from the
entire pool (no re-filtering), so every pool element is eligible to appear
in the result. -/
theorem claim_C3_fallback_full_pool (words : List Word) (count : Nat)
    (difficulty : String) (hd : difficulty ≠ "all")
    (hlt : (words.filter (fun word => word.difficulty == difficulty)).length < count) :
    (∀ rand, selectRandomWords rand words count difficulty =
      (shuffleArray rand words).take count) ∧
    (∀ x ∈ words, 0 < count →
      ∃ rand, x ∈ selectRandomWords rand words count difficulty) := by
  have heq : ∀ rand : Nat → Nat, selectRandomWords rand words count difficulty =
      (shuffleArray rand words).take count := by
    intro rand
    simp only [selectRandomWords]
    rw [if_pos (bne_iff_ne.mpr hd), if_pos hlt]
  refine ⟨heq, ?_⟩
  intro x hx hc
  obtain ⟨⟨k, hk⟩, hget⟩ := List.mem_iff_get.mp hx
  refine ⟨fun i => if i = k then 0 else i, ?_⟩
  rw [heq, shuffle_front words k hk]
  obtain ⟨t, ht⟩ := swapAt_zero_head words k hk
  rw [ht, hget]
  cases count with
  | zero => exact absurd hc (Nat.lt_irrefl 0)
  | succ c => rw [List.take_succ_cons]; exact List.mem_cons_self x _

/-- Witness for claim C3: the spec scenario of a pool with one easy item
and a requested count of 5. -/
theorem claim_C3_witness :
    ("easy" ≠ "all" ∧
      (([wA] : List Word).filter (fun word => word.difficulty == "easy")).length < 5) ∧
    ((∀ rand, selectRandomWords rand [wA] 5 "easy" =
        (shuffleArray rand [wA]).take 5) ∧
     (∀ x ∈ ([wA] : List Word), 0 < 5 →
        ∃ rand, x ∈ selectRandomWords rand [wA] 5 "easy")) :=
  ⟨⟨by decide, by decide⟩,
    claim_C3_fallback_full_pool [wA] 5 "easy" (by decide) (by decide)⟩

theorem generateWrongAnswers_mem (rand : Nat → Nat) (correctWord : Word)
    (allWords : List Word) (count : Nat) (s : String)
    (hs : s ∈ generateWrongAnswers rand correctWord allWords count) :
    ∃ w ∈ allWords, w.word ≠ correctWord.word ∧ w.meaning = s := by
  simp only [generateWrongAnswers] at hs
  obtain ⟨w, hw, rfl⟩ := List.mem_map.mp hs
  have hw2 := take_shuffle_subset rand _ count w hw
  have hw3 := List.mem_filter.mp hw2
  exact ⟨w, hw3.1, bne_iff_ne.mp hw3.2, rfl⟩

/-- Counterexample to claim C4 as stated: when another pool item (a distinct
word) carries the same meaning string as the correct item, the correct
meaning appears twice among the returned options. -/
def wDup : Word :=
  { word := "xeric", meaning := "to lessen", «example» := "A xeric climate.",
    difficulty := "easy" }

/-- Claim C4, counterexample: with pool `[wA, wDup]` (two distinct words
sharing the meaning string of `wA`), the options list contains `wA`'s
meaning twice, not exactly once. -/
theorem claim_C4_counterexample :
    List.count wA.meaning
      (createMultipleChoiceOptions (fun _ => 0) (fun _ => 0) wA [wA, wDup]) = 2 ∧
    ¬ (List.count wA.meaning
      (createMultipleChoiceOptions (fun _ => 0) (fun _ => 0) wA [wA, wDup]) = 1) := by
  decide

/-- Claim C4, amended: for every pool, the correct item's meaning appears
among the returned options at least once, and every distractor candidate
comes from a pool item other than the correct one, compared by word
identity; the meaning appears exactly once provided no other pool item (a
different word) carries the same meaning string. -/
theorem claim_C4_amended_options (rand₁ rand₂ : Nat → Nat) (correctWord : Word)
    (allWords : List Word) :
    correctWord.meaning ∈ createMultipleChoiceOptions rand₁ rand₂ correctWord allWords ∧
    (∀ s ∈ generateWrongAnswers rand₁ correctWord allWords 3,
      ∃ w ∈ allWords, w.word ≠ correctWord.word ∧ w.meaning = s) ∧
    ((∀ w ∈ allWords, w.word ≠ correctWord.word → w.meaning ≠ correctWord.meaning) →
      List.count correctWord.meaning
        (createMultipleChoiceOptions rand₁ rand₂ correctWord allWords) = 1) := by
  have hperm : List.Perm (createMultipleChoiceOptions rand₁ rand₂ correctWord allWords)
      (correctWord.meaning :: generateWrongAnswers rand₁ correctWord allWords 3) := by
    simp only [createMultipleChoiceOptions]
    exact shuffleArray_perm rand₂ _
  refine ⟨hperm.mem_iff.mpr (List.mem_cons_self _ _),
    fun s hs => generateWrongAnswers_mem rand₁ correctWord allWords 3 s hs, ?_⟩
  intro hm
  rw [hperm.count_eq, List.count_cons_self]
  have hzero : List.count correctWord.meaning
      (generateWrongAnswers rand₁ correctWord allWords 3) = 0 := by
    rw [List.count_eq_zero]
    intro hmem
    obtain ⟨w, hwpool, hwne, hwm⟩ :=
      generateWrongAnswers_mem rand₁ correctWord allWords 3 _ hmem
    exact hm w hwpool hwne hwm
  rw [hzero]

/-- Witness for the amended claim C4 at a concrete pool with distinct
meanings, discharging the exactly-once condition there. -/
theorem claim_C4_witness :
    wA.meaning ∈ createMultipleChoiceOptions (fun _ => 0) (fun _ => 0) wA [wA, wB] ∧
    (∀ s ∈ generateWrongAnswers (fun _ => 0) wA [wA, wB] 3,
      ∃ w ∈ [wA, wB], w.word ≠ wA.word ∧ w.meaning = s) ∧
    ((∀ w ∈ ([wA, wB] : List Word), w.word ≠ wA.word → w.meaning ≠ wA.meaning) ∧
     List.count wA.meaning
       (createMultipleChoiceOptions (fun _ => 0) (fun _ => 0) wA [wA, wB]) = 1) :=
  ⟨(claim_C4_amended_options (fun _ => 0) (fun _ => 0) wA [wA, wB]).1,
   (claim_C4_amended_options (fun _ => 0) (fun _ => 0) wA [wA, wB]).2.1,
   by decide,
   (claim_C4_amended_options (fun _ => 0) (fun _ => 0) wA [wA, wB]).2.2 (by decide)⟩

/-- `initializeTest(words)` from `useTestState`: fresh session with index 0,
score 0, no answers; `Date.now()` is the explicit argument `now`. -/
def initializeTest (words : List Word) (now : Nat) : TestState :=
  { currentQuestionIndex := 0, score := 0, selectedWords := words, answers := [],
    startTime := now }

/-- The answers-list update inside `recordAnswer`: replace the entry found by
`findIndex(a => a.questionIndex === questionIndex)` if one exists, otherwise
push the new answer. -/
def recordAnswerAux (questionIndex : Nat) (newAnswer : Answer)
    (answers : List Answer) : List Answer :=
  match answers.findIdx? (fun a => a.questionIndex == questionIndex) with
  | some existingIndex => answers.set existingIndex newAnswer
  | none => answers ++ [newAnswer]

/-- `recordAnswer(questionIndex, selectedAnswer, correct)` from
`useTestState`: updates the answers list via `recordAnswerAux` and sets
`score` to `correct ? score + 1 : score`. -/
def recordAnswer (testState : TestState) (questionIndex : Nat)
    (selectedAnswer : String) (correct : Bool) : TestState :=
  { testState with
    answers := recordAnswerAux questionIndex
      ⟨questionIndex, selectedAnswer, correct⟩ testState.answers,
    score := if correct then testState.score + 1 else testState.score }

/-- `nextQuestion()` from `useTestState`: advance only while strictly before
the last index of `selectedWords`. -/
def nextQuestion (testState : TestState) : TestState :=
  if testState.currentQuestionIndex < testState.selectedWords.length - 1 then
    { testState with currentQuestionIndex := testState.currentQuestionIndex + 1 }
  else testState

theorem recordAnswerAux_cons_neg (questionIndex : Nat) (newAnswer : Answer)
    (x : Answer) (t : List Answer) (hp : (x.questionIndex == questionIndex) = false) :
    recordAnswerAux questionIndex newAnswer (x :: t) =
      x :: recordAnswerAux questionIndex newAnswer t := by
  unfold recordAnswerAux
  cases hfi : List.findIdx? (fun a => a.questionIndex == questionIndex) t with
  | none => simp [List.findIdx?_cons, hp, hfi]
  | some k => simp [List.findIdx?_cons, hp, hfi]

theorem recordAnswerAux_idem (questionIndex : Nat) (newAnswer : Answer)
    (hna : newAnswer.questionIndex = questionIndex) :
    ∀ l : List Answer,
      recordAnswerAux questionIndex newAnswer (recordAnswerAux questionIndex newAnswer l) =
        recordAnswerAux questionIndex newAnswer l
  | [] => by
    have h1 : recordAnswerAux questionIndex newAnswer [] = [newAnswer] := by
      simp [recordAnswerAux]
    rw [h1]
    simp [recordAnswerAux, List.findIdx?_cons, hna]
  | x :: t => by
    cases hp : (x.questionIndex == questionIndex) with
    | false =>
      rw [recordAnswerAux_cons_neg questionIndex newAnswer x t hp,
        recordAnswerAux_cons_neg questionIndex newAnswer x _ hp,
        recordAnswerAux_idem questionIndex newAnswer hna t]
    | true =>
      have h1 : recordAnswerAux questionIndex newAnswer (x :: t) = newAnswer :: t := by
        simp [recordAnswerAux, List.findIdx?_cons, hp]
      have h2 : recordAnswerAux questionIndex newAnswer (newAnswer :: t) =
          newAnswer :: t := by
        simp [recordAnswerAux, List.findIdx?_cons, hna]
      rw [h1]
      exact h2

/-- Counterexample to claim C1 as stated: recording the same correct answer
twice for index 0 yields score 2, so the second recording does change
`score` beyond the first recording's effect. -/
theorem claim_C1_counterexample :
    ¬ ((recordAnswer (recordAnswer (initializeTest [wA] 0) 0 "to lessen" true)
          0 "to lessen" true).score =
       (recordAnswer (initializeTest [wA] 0) 0 "to lessen" true).score) := by
  decide

/-- Claim C1, amended: `recordAnswer` is idempotent on the `answers` mapping
(re-recording the same answer for an index replaces, never duplicates), but
`score` is incremented by 1 on every recording of a correct answer —
including re-recordings for an already-answered index — and left unchanged
on every recording of an incorrect answer. -/
theorem claim_C1_amended_recordAnswer (s : TestState) (questionIndex : Nat)
    (selectedAnswer : String) (correct : Bool) :
    (recordAnswer (recordAnswer s questionIndex selectedAnswer correct)
        questionIndex selectedAnswer correct).answers =
      (recordAnswer s questionIndex selectedAnswer correct).answers ∧
    (recordAnswer s questionIndex selectedAnswer correct).score =
      (if correct then s.score + 1 else s.score) ∧
    (recordAnswer (recordAnswer s questionIndex selectedAnswer correct)
        questionIndex selectedAnswer correct).score =
      (if correct then s.score + 2 else s.score) := by
  refine ⟨recordAnswerAux_idem questionIndex ⟨questionIndex, selectedAnswer, correct⟩
    rfl s.answers, rfl, ?_⟩
  cases correct with
  | false => rfl
  | true => rfl

/-- Claim C9: `nextQuestion` increments `currentQuestionIndex` by 1 whenever
it is strictly before the last index of `selectedWords`, and is a no-op
(state unchanged, no error) when it equals the last index. -/
theorem claim_C9_nextQuestion_spec (s : TestState) :
    (s.currentQuestionIndex < s.selectedWords.length - 1 →
      nextQuestion s = { s with currentQuestionIndex := s.currentQuestionIndex + 1 }) ∧
    (s.currentQuestionIndex = s.selectedWords.length - 1 → nextQuestion s = s) := by
  constructor
  · intro h
    unfold nextQuestion
    rw [if_pos h]
  · intro h
    unfold nextQuestion
    rw [if_neg (by omega)]

/-- Witness for claim C9: a two-question session advances from index 0 to 1
and then stays at 1 (the last index). -/
theorem claim_C9_witness :
    (initializeTest [wA, wB] 0).currentQuestionIndex <
      (initializeTest [wA, wB] 0).selectedWords.length - 1 ∧
    nextQuestion (initializeTest [wA, wB] 0) =
      { initializeTest [wA, wB] 0 with currentQuestionIndex := 1 } ∧
    nextQuestion (nextQuestion (initializeTest [wA, wB] 0)) =
      nextQuestion (initializeTest [wA, wB] 0) :=
  ⟨by decide,
   (claim_C9_nextQuestion_spec (initializeTest [wA, wB] 0)).1 (by decide),
   (claim_C9_nextQuestion_spec (nextQuestion (initializeTest [wA, wB] 0))).2 (by decide)⟩

/-- The per-user statistics record, from the `user_stats` table row used by
`updateUserStats`; the JS floating-point fields `accuracy_percentage` and
`average_score` are modelled by `ℚ` (all operations performed on them here
are exact in both). -/
structure UserStats where
  total_tests : Nat
  total_questions : Nat
  correct_answers : Nat
  accuracy_percentage : ℚ
  average_score : ℚ
  best_score : Nat
deriving DecidableEq

/-- The zero-valued statistics record (the prior state of a user with no
`user_stats` row). -/
def zeroStats : UserStats :=
  { total_tests := 0, total_questions := 0, correct_answers := 0,
    accuracy_percentage := 0, average_score := 0, best_score := 0 }

/-- `updateUserStats(testState)` from `useTestResults`: fold the finished
session into the current stats row, or create a fresh row when none exists.
The row read from the database is the explicit argument `currentStats`. -/
def updateUserStats (currentStats : Option UserStats) (testState : TestState) :
    UserStats :=
  let totalQuestions := testState.selectedWords.length
  let correctAnswers := testState.score
  match currentStats with
  | some stats =>
    let newTotalTests := stats.total_tests + 1
    let newTotalQuestions := stats.total_questions + totalQuestions
    let newCorrectAnswers := stats.correct_answers + correctAnswers
    let newAccuracy := ((newCorrectAnswers : ℚ) / (newTotalQuestions : ℚ)) * 100
    let newAverageScore := (newCorrectAnswers : ℚ) / (newTotalTests : ℚ)
    let newBestScore := max stats.best_score correctAnswers
    { total_tests := newTotalTests, total_questions := newTotalQuestions,
      correct_answers := newCorrectAnswers, accuracy_percentage := newAccuracy,
      average_score := newAverageScore, best_score := newBestScore }
  | none =>
    let accuracy := ((correctAnswers : ℚ) / (totalQuestions : ℚ)) * 100
    { total_tests := 1, total_questions := totalQuestions,
      correct_answers := correctAnswers, accuracy_percentage := accuracy,
      average_score := (correctAnswers : ℚ), best_score := correctAnswers }

/-- The spec scenario session: 20 questions, score 15. -/
def sessionScenario : TestState :=
  { currentQuestionIndex := 19, score := 15,
    selectedWords := List.replicate 20 wA, answers := [], startTime := 0 }

/-- Claim C5: the statistics update adds one test, the session's question
count and score to the running totals, recomputes `accuracy_percentage` and
`average_score` from the new totals, takes the max for `best_score`, and
treats a missing prior row as all zeroes; the scenario session (score 15 of
20, no prior row) yields accuracy 75. -/
theorem claim_C5_updateUserStats_spec (currentStats : Option UserStats)
    (testState : TestState) :
    (updateUserStats currentStats testState).total_tests =
      (currentStats.getD zeroStats).total_tests + 1 ∧
    (updateUserStats currentStats testState).total_questions =
      (currentStats.getD zeroStats).total_questions + testState.selectedWords.length ∧
    (updateUserStats currentStats testState).correct_answers =
      (currentStats.getD zeroStats).correct_answers + testState.score ∧
    (updateUserStats currentStats testState).accuracy_percentage =
      ((updateUserStats currentStats testState).correct_answers : ℚ) /
        ((updateUserStats currentStats testState).total_questions : ℚ) * 100 ∧
    (updateUserStats currentStats testState).average_score =
      ((updateUserStats currentStats testState).correct_answers : ℚ) /
        ((updateUserStats currentStats testState).total_tests : ℚ) ∧
    (updateUserStats currentStats testState).best_score =
      max (currentStats.getD zeroStats).best_score testState.score ∧
    (updateUserStats none sessionScenario).accuracy_percentage = 75 := by
  have hscenario : (updateUserStats none sessionScenario).accuracy_percentage = 75 := by
    show ((15 : ℚ) / ((List.replicate 20 wA).length : ℚ)) * 100 = 75
    rw [List.length_replicate]
    norm_num
  cases currentStats with
  | none =>
    refine ⟨rfl, (Nat.zero_add _).symm, (Nat.zero_add _).symm, rfl, ?_, ?_, hscenario⟩
    · show (testState.score : ℚ) = (testState.score : ℚ) / ((1 : Nat) : ℚ)
      norm_num
    · show testState.score = max zeroStats.best_score testState.score
      simp [zeroStats]
  | some stats =>
    exact ⟨rfl, rfl, rfl, rfl, rfl, rfl, hscenario⟩

/-- A stored test-result row, from the `test_results` table insert in
`saveTestResult`: the database-assigned `id` and `created_at` are explicit
arguments of the model.  All rows here belong to the one authenticated user,
so the `user_id` column and its equality filters are implicit. -/
structure TestResult where
  id : Nat
  score : Nat
  total_questions : Nat
  difficulty : String
  time_taken : Int
  answers : List Answer
  created_at : Nat
deriving DecidableEq

/-- `Math.round((endTime - testState.startTime) / 1000)`; `round` on `ℚ` is
`⌊x + 1/2⌋`, exactly JavaScript's `Math.round`. -/
def timeTakenSeconds (startTime endTime : Nat) : Int :=
  round (((endTime : ℚ) - (startTime : ℚ)) / 1000)

/-- The external store as seen by one user: their `test_results` rows in
storage order, and their optional `user_stats` row. -/
structure Db where
  test_results : List TestResult
  user_stats : Option UserStats
deriving DecidableEq

/-- The `order('created_at', { ascending: false })` ordering: newest first. -/
def recentFirst (a b : TestResult) : Prop := b.created_at ≤ a.created_at

instance : DecidableRel recentFirst := fun a b => Nat.decLe b.created_at a.created_at

instance : IsTotal TestResult recentFirst :=
  ⟨fun a b => (Nat.le_total b.created_at a.created_at).elim Or.inl Or.inr⟩

instance : IsTrans TestResult recentFirst :=
  ⟨fun _ _ _ hab hbc => Nat.le_trans hbc hab⟩

/-- `cleanupOldTests()` from `useTestResults`: fetch the user's rows newest
first; when more than 20 exist, delete every row whose id is beyond
position 20 of that ordering. -/
def cleanupOldTests (rows : List TestResult) : List TestResult :=
  let allTests := List.insertionSort recentFirst rows
  if allTests.length > 20 then
    let testsToDelete := allTests.drop 20
    let idsToDelete := testsToDelete.map (fun t => t.id)
    rows.filter (fun r => decide (r.id ∉ idsToDelete))
  else rows

/-- `saveTestResult(testState, difficulty, endTime)` from `useTestResults`:
insert the result row, then update the statistics, then prune old rows.
`insertOk` models whether the insert succeeds (`testError` absent); on
failure the function returns null and performs nothing further. -/
def saveTestResult (insertOk : Bool) (db : Db) (testState : TestState)
    (difficulty : String) (endTime : Nat) (newId : Nat) :
    Option TestResult × Db :=
  let timeTaken := timeTakenSeconds testState.startTime endTime
  let testResult : TestResult :=
    { id := newId, score := testState.score,
      total_questions := testState.selectedWords.length, difficulty := difficulty,
      time_taken := timeTaken, answers := testState.answers, created_at := endTime }
  if insertOk then
    let db1 : Db := { db with test_results := db.test_results ++ [testResult] }
    let db2 : Db := { db1 with
      user_stats := some (updateUserStats db1.user_stats testState) }
    let db3 : Db := { db2 with test_results := cleanupOldTests db2.test_results }
    (some testResult, db3)
  else
    (none, db)

/-- Claim C7: when the result insert fails, `saveTestResult` returns a null
result and the statistics aggregation is not attempted — the store, and in
particular the `user_stats` row, is untouched. -/
theorem claim_C7_insert_failure (db : Db) (testState : TestState)
    (difficulty : String) (endTime newId : Nat) :
    saveTestResult false db testState difficulty endTime newId = (none, db) ∧
    (saveTestResult false db testState difficulty endTime newId).2.user_stats =
      db.user_stats :=
  ⟨rfl, rfl⟩

theorem cleanupOldTests_spec (rows : List TestResult)
    (hids : (rows.map TestResult.id).Nodup) :
    (cleanupOldTests rows).length = min rows.length 20 ∧
    List.Perm (cleanupOldTests rows)
      ((List.insertionSort recentFirst rows).take 20) ∧
    (∀ x ∈ cleanupOldTests rows, ∀ y ∈ rows, y ∉ cleanupOldTests rows →
      y.created_at ≤ x.created_at) := by
  have hperm : List.Perm (List.insertionSort recentFirst rows) rows :=
    List.perm_insertionSort recentFirst rows
  have hsort : List.Sorted recentFirst (List.insertionSort recentFirst rows) :=
    List.sorted_insertionSort recentFirst rows
  have hslen : (List.insertionSort recentFirst rows).length = rows.length :=
    hperm.length_eq
  by_cases hlen : (List.insertionSort recentFirst rows).length > 20
  · have hcleanup : cleanupOldTests rows =
        rows.filter (fun r => decide (r.id ∉
          ((List.insertionSort recentFirst rows).drop 20).map (fun t => t.id))) := by
      simp only [cleanupOldTests]
      rw [if_pos hlen]
    set s := List.insertionSort recentFirst rows with hs
    set keep := s.take 20 with hkeep
    set del := s.drop 20 with hdel
    have hsplit : keep ++ del = s := List.take_append_drop 20 s
    have hnodup_s : (s.map TestResult.id).Nodup := (hperm.map TestResult.id).nodup_iff.mpr hids
    have hdisj : ∀ x ∈ keep, x.id ∉ del.map (fun t => t.id) := by
      intro x hx hmem
      rw [← hsplit, List.map_append] at hnodup_s
      obtain ⟨-, -, hdisjoint⟩ := List.nodup_append.mp hnodup_s
      exact hdisjoint (List.mem_map_of_mem TestResult.id hx)
        (by simpa using hmem)
    have hfk : keep.filter (fun r => decide (r.id ∉ del.map (fun t => t.id))) = keep := by
      rw [List.filter_eq_self]
      intro a ha
      exact decide_eq_true (hdisj a ha)
    have hfd : del.filter (fun r => decide (r.id ∉ del.map (fun t => t.id))) = [] := by
      rw [List.filter_eq_nil_iff]
      intro a ha
      have hamem : a.id ∈ del.map (fun t => t.id) :=
        List.mem_map_of_mem (fun t => t.id) ha
      simp [hamem]
    have hpermc : List.Perm (cleanupOldTests rows) keep := by
      rw [hcleanup]
      have h1 : List.Perm
          (rows.filter (fun r => decide (r.id ∉ del.map (fun t => t.id))))
          (s.filter (fun r => decide (r.id ∉ del.map (fun t => t.id)))) :=
        (hperm.filter _).symm
      rw [← hsplit, List.filter_append, hfk, hfd, List.append_nil] at h1
      exact h1
    refine ⟨?_, hpermc, ?_⟩
    · rw [hpermc.length_eq, hkeep, List.length_take]
      omega
    · intro x hx y hy hny
      have hxkeep : x ∈ keep := hpermc.mem_iff.mp hx
      have hys : y ∈ s := hperm.mem_iff.mpr hy
      have hydel : y ∈ del := by
        rw [← hsplit] at hys
        rcases List.mem_append.mp hys with hyk | hyd
        · exact absurd (hpermc.mem_iff.mpr hyk) hny
        · exact hyd
      have hsorted : List.Sorted recentFirst (keep ++ del) := by
        rw [hsplit]; exact hsort
      obtain ⟨-, -, hcross⟩ := List.pairwise_append.mp hsorted
      exact hcross x hxkeep y hydel
  · have hcleanup : cleanupOldTests rows = rows := by
      simp only [cleanupOldTests]
      rw [if_neg hlen]
    have htake : (List.insertionSort recentFirst rows).take 20 =
        List.insertionSort recentFirst rows :=
      List.take_of_length_le (by omega)
    refine ⟨?_, ?_, ?_⟩
    · rw [hcleanup]; omega
    · rw [hcleanup, htake]; exact hperm.symm
    · intro x hx y hy hny
      rw [hcleanup] at hny
      exact absurd hy hny

/-- Claim C6: after a successful insert, `saveTestResult` prunes the user's
history to the 20 most recent rows by creation time — the remaining rows are
a permutation of the first 20 of the newest-first ordering, there are
`min (n + 1) 20` of them, and every pruned row is no newer than every kept
row.  In particular a 21st completed quiz leaves exactly 20 rows. -/
theorem claim_C6_retention (db : Db) (testState : TestState) (difficulty : String)
    (endTime newId : Nat)
    (hids : ((db.test_results.map TestResult.id) ++ [newId]).Nodup) :
    ∃ inserted : TestResult,
      (saveTestResult true db testState difficulty endTime newId).1 = some inserted ∧
      (saveTestResult true db testState difficulty endTime newId).2.test_results.length =
        min (db.test_results.length + 1) 20 ∧
      List.Perm (saveTestResult true db testState difficulty endTime newId).2.test_results
        ((List.insertionSort recentFirst (db.test_results ++ [inserted])).take 20) ∧
      (∀ x ∈ (saveTestResult true db testState difficulty endTime newId).2.test_results,
        ∀ y ∈ db.test_results ++ [inserted],
          y ∉ (saveTestResult true db testState difficulty endTime newId).2.test_results →
            y.created_at ≤ x.created_at) := by
  have hmap : (((db.test_results ++
      [{ id := newId, score := testState.score,
         total_questions := testState.selectedWords.length, difficulty := difficulty,
         time_taken := timeTakenSeconds testState.startTime endTime,
         answers := testState.answers, created_at := endTime : TestResult}]).map
        TestResult.id)).Nodup := by
    simpa [List.map_append] using hids
  obtain ⟨h1, h2, h3⟩ := cleanupOldTests_spec _ hmap
  refine ⟨_, rfl, ?_, h2, h3⟩
  exact h1.trans (by simp)

/-- Witness for claim C6 at a concrete store and session. -/
theorem claim_C6_witness :
    (((Db.mk [] none).test_results.map TestResult.id) ++ [1]).Nodup ∧
    (∃ inserted : TestResult,
      (saveTestResult true (Db.mk [] none) (initializeTest [wA] 0) "all" 5 1).1 =
        some inserted ∧
      (saveTestResult true (Db.mk [] none) (initializeTest [wA] 0) "all" 5 1).2.test_results.length =
        min ((Db.mk [] none).test_results.length + 1) 20 ∧
      List.Perm (saveTestResult true (Db.mk [] none) (initializeTest [wA] 0) "all" 5 1).2.test_results
        ((List.insertionSort recentFirst ((Db.mk [] none).test_results ++ [inserted])).take 20) ∧
      (∀ x ∈ (saveTestResult true (Db.mk [] none) (initializeTest [wA] 0) "all" 5 1).2.test_results,
        ∀ y ∈ (Db.mk [] none).test_results ++ [inserted],
          y ∉ (saveTestResult true (Db.mk [] none) (initializeTest [wA] 0) "all" 5 1).2.test_results →
            y.created_at ≤ x.created_at)) :=
  ⟨by decide, claim_C6_retention (Db.mk [] none) (initializeTest [wA] 0) "all" 5 1 (by decide)⟩

/-- The JSON value universe that `JSON.stringify`/`JSON.parse` transport in
`useLocalStorage`.  The string layer itself belongs to the host runtime (an
external collaborator); on values of this shape — plain objects, arrays,
strings, booleans and the non-negative integers the session stores —
`JSON.parse` is exactly inverse to `JSON.stringify`, so the pair is modelled
as the identity on this AST and `localStorage` as a key-to-AST map. -/
inductive Json where
  | str : String → Json
  | num : Nat → Json
  | bool : Bool → Json
  | arr : List Json → Json
  | obj : List (String × Json) → Json

/-- Reading a string out of a parsed JSON value. -/
def jStr : Json → Option String
  | .str s => some s
  | _ => none

/-- Reading a non-negative integer out of a parsed JSON value. -/
def jNum : Json → Option Nat
  | .num n => some n
  | _ => none

/-- Reading a boolean out of a parsed JSON value. -/
def jBool : Json → Option Bool
  | .bool b => some b
  | _ => none

/-- Reading an array out of a parsed JSON value. -/
def jArr : Json → Option (List Json)
  | .arr xs => some xs
  | _ => none

/-- Reading an object field of a parsed JSON value. -/
def jField (j : Json) (key : String) : Option Json :=
  match j with
  | .obj fields => fields.lookup key
  | _ => none

/-- `JSON.stringify` of a `Word`, at the AST level. -/
def encodeWord (w : Word) : Json :=
  .obj [("word", .str w.word), ("meaning", .str w.meaning),
        ("example", .str w.«example»), ("difficulty", .str w.difficulty)]

/-- Reading a `Word` back from a parsed JSON value. -/
def decodeWord (j : Json) : Option Word := do
  let word ← jField j "word" >>= jStr
  let meaning ← jField j "meaning" >>= jStr
  let exampleText ← jField j "example" >>= jStr
  let difficulty ← jField j "difficulty" >>= jStr
  pure ⟨word, meaning, exampleText, difficulty⟩

/-- `JSON.stringify` of an answers entry, at the AST level. -/
def encodeAnswer (a : Answer) : Json :=
  .obj [("questionIndex", .num a.questionIndex),
        ("selectedAnswer", .str a.selectedAnswer), ("correct", .bool a.correct)]

/-- Reading an answers entry back from a parsed JSON value. -/
def decodeAnswer (j : Json) : Option Answer := do
  let questionIndex ← jField j "questionIndex" >>= jNum
  let selectedAnswer ← jField j "selectedAnswer" >>= jStr
  let correct ← jField j "correct" >>= jBool
  pure ⟨questionIndex, selectedAnswer, correct⟩

/-- Reading each element of a parsed JSON array. -/
def decodeListWith {α : Type} (f : Json → Option α) : List Json → Option (List α)
  | [] => some []
  | j :: t =>
    match f j, decodeListWith f t with
    | some x, some xs => some (x :: xs)
    | _, _ => none

/-- `JSON.stringify(valueToStore)` for the session state, at the AST level. -/
def encodeTestState (s : TestState) : Json :=
  .obj [("currentQuestionIndex", .num s.currentQuestionIndex),
        ("score", .num s.score),
        ("selectedWords", .arr (s.selectedWords.map encodeWord)),
        ("answers", .arr (s.answers.map encodeAnswer)),
        ("startTime", .num s.startTime)]

/-- `JSON.parse(item)` read back as a session state; `none` models a stored
value that does not have the session's shape. -/
def decodeTestState (j : Json) : Option TestState := do
  let currentQuestionIndex ← jField j "currentQuestionIndex" >>= jNum
  let score ← jField j "score" >>= jNum
  let selectedWordsJson ← jField j "selectedWords" >>= jArr
  let selectedWords ← decodeListWith decodeWord selectedWordsJson
  let answersJson ← jField j "answers" >>= jArr
  let answers ← decodeListWith decodeAnswer answersJson
  let startTime ← jField j "startTime" >>= jNum
  pure ⟨currentQuestionIndex, score, selectedWords, answers, startTime⟩

/-- `window.localStorage.setItem(key, ...)`: replace any previous value held
under `key`. -/
def lsSetItem (store : List (String × Json)) (key : String) (value : Json) :
    List (String × Json) :=
  (key, value) :: store.filter (fun kv => kv.1 != key)

/-- `window.localStorage.getItem(key)`. -/
def lsGetItem (store : List (String × Json)) (key : String) : Option Json :=
  store.lookup key

/-- The initial read of `useLocalStorage`:
`item ? JSON.parse(item) : initialValue`. -/
def readStoredSession (store : List (String × Json)) (key : String)
    (initialValue : Option TestState) : Option TestState :=
  match lsGetItem store key with
  | some item => decodeTestState item
  | none => initialValue

/-- The write path of `useLocalStorage`'s `setValue`:
`localStorage.setItem(key, JSON.stringify(valueToStore))`. -/
def writeStoredSession (store : List (String × Json)) (key : String)
    (s : TestState) : List (String × Json) :=
  lsSetItem store key (encodeTestState s)

theorem decodeWord_encodeWord (w : Word) : decodeWord (encodeWord w) = some w := rfl

theorem decodeAnswer_encodeAnswer (a : Answer) :
    decodeAnswer (encodeAnswer a) = some a := rfl

theorem decodeListWith_map {α : Type} (f : α → Json) (g : Json → Option α)
    (hfg : ∀ x, g (f x) = some x) :
    ∀ l : List α, decodeListWith g (l.map f) = some l
  | [] => rfl
  | x :: t => by
    simp only [List.map_cons, decodeListWith, hfg x,
      decodeListWith_map f g hfg t]

theorem decodeTestState_encodeTestState (s : TestState) :
    decodeTestState (encodeTestState s) = some s := by
  have hw := decodeListWith_map encodeWord decodeWord decodeWord_encodeWord
    s.selectedWords
  have ha := decodeListWith_map encodeAnswer decodeAnswer decodeAnswer_encodeAnswer
    s.answers
  have h1 : jField (encodeTestState s) "currentQuestionIndex" =
      some (.num s.currentQuestionIndex) := rfl
  have h2 : jField (encodeTestState s) "score" = some (.num s.score) := rfl
  have h3 : jField (encodeTestState s) "selectedWords" =
      some (.arr (s.selectedWords.map encodeWord)) := rfl
  have h4 : jField (encodeTestState s) "answers" =
      some (.arr (s.answers.map encodeAnswer)) := rfl
  have h5 : jField (encodeTestState s) "startTime" = some (.num s.startTime) := rfl
  simp only [decodeTestState, h1, h2, h3, h4, h5, jNum, jArr, Option.bind_eq_bind,
    Option.some_bind, hw, ha]
  rfl

theorem lsGetItem_set (store : List (String × Json)) (key : String) (value : Json) :
    lsGetItem (lsSetItem store key value) key = some value := by
  simp [lsGetItem, lsSetItem, List.lookup]

/-- Claim C8: persisting a session through the `useLocalStorage` write path
and reading it back yields the very same state — in particular an identical
`currentQuestionIndex`, `score` and `answers` mapping — regardless of what
the store held before and of the hook's initial value. -/
theorem claim_C8_roundtrip (store : List (String × Json)) (key : String)
    (s : TestState) (initialValue : Option TestState) :
    readStoredSession (writeStoredSession store key s) key initialValue = some s := by
  unfold readStoredSession writeStoredSession
  rw [lsGetItem_set]
  exact decodeTestState_encodeTestState s

end VocabTest
